import Mathlib

/-!
Shallow embedding of the `ring_view` repository's ring-buffer code.

The central artifact is `ring_span`, the reference implementation of
P0059R1 plus errata: a non-owning view over caller-supplied contiguous
storage.  The C++ object holds a pointer `data_` into shared storage
together with the bookkeeping fields `size_`, `capacity_`, `front_idx_`
(all `std::size_t`, modelled as `Nat`).  Here the bookkeeping fields form
the structure `ring_span`; the storage `data_` points to is passed
explicitly as a `List α` alongside the bookkeeping, so several views can
share one buffer exactly as several C++ `ring_span` objects can point at
the same array.  A mutating member function becomes a function returning
the updated bookkeeping and the updated storage.

Namespace `P04` embeds the member functions of the "P0059R1 + errata"
header; namespace `P03` embeds the earlier "P0059R1" draft header, whose
`push_back` writes the slot before adjusting the bookkeeping and which
provides the free functions `try_push_back` / `try_pop_front`.
-/

/-- The bookkeeping fields of a `ring_span` object.  The omitted `data_`
pointer is modelled by passing the pointed-to buffer explicitly. -/
structure ring_span where
  size_ : Nat
  capacity_ : Nat
  front_idx_ : Nat
  deriving DecidableEq, Repr

/-- A removal policy ("popper"): from the popped element's current value,
produce the pop call's result and the value left behind in the vacated
slot. -/
structure Popper (α β : Type) where
  run : α → β × α

/-- `null_popper`: `void operator()(T&) { }` — produces nothing and leaves
the slot's value as it was. -/
def null_popper {α : Type} : Popper α Unit :=
  ⟨fun t => ((), t)⟩

/-- `move_popper` / `default_popper`: `T operator()(T& t) { return std::move(t); }` —
returns the slot's value.  For the plain-data element types modelled here a
move reads the value and leaves the slot holding the same bytes. -/
def move_popper {α : Type} : Popper α α :=
  ⟨fun t => (t, t)⟩

namespace P04

variable {α β : Type} [Inhabited α]

/-- `empty()`: `size_ == 0`. -/
def empty (r : ring_span) : Bool :=
  r.size_ == 0

/-- `full()`: `size_ == capacity_`. -/
def full (r : ring_span) : Bool :=
  r.size_ == r.capacity_

/-- `size()`. -/
def size (r : ring_span) : Nat :=
  r.size_

/-- `capacity()`. -/
def capacity (r : ring_span) : Nat :=
  r.capacity_

/-- `at(i)`: `data_[(front_idx_ + i) % capacity_]`. -/
def at_ (r : ring_span) (buf : List α) (i : Nat) : α :=
  buf.getD ((r.front_idx_ + i) % r.capacity_) default

/-- The full constructor `ring_span(begin, end)`: `size_ = capacity_ = end - begin`,
`front_idx_ = 0`. -/
def mkFull (buf : List α) : ring_span :=
  { size_ := buf.length, capacity_ := buf.length, front_idx_ := 0 }

/-- The four-argument constructor `ring_span(begin, end, first, size)`:
stores `size_ = size`, `capacity_ = end - begin`, `front_idx_ = first - begin`
exactly as given. -/
def mkWindow (buf : List α) (first sz : Nat) : ring_span :=
  { size_ := sz, capacity_ := buf.length, front_idx_ := first }

/-- `front()`: `*begin()`, i.e. `at(0)`. -/
def front (r : ring_span) (buf : List α) : α :=
  at_ r buf 0

/-- `back()`: `*(end() - 1)`, i.e. `at(size() - 1)`. -/
def back (r : ring_span) (buf : List α) : α :=
  at_ r buf (r.size_ - 1)

/-- `push_back(value)`: if `full()` run `increment_front_and_back_()`
(`front_idx_ = (front_idx_ + 1) % capacity_`), otherwise `increment_back_()`
(`++size_`); then `back_() = value` assigns slot
`(front_idx_ + size_ - 1) % capacity_` of the updated bookkeeping.
(The `- 1` underflows only when `size_ = front_idx_ = 0`, which needs
`capacity_ = 0`, where the source's `% capacity_` is itself undefined.) -/
def push_back (r : ring_span) (buf : List α) (v : α) : ring_span × List α :=
  let r' := if full r
    then { r with front_idx_ := (r.front_idx_ + 1) % r.capacity_ }
    else { r with size_ := r.size_ + 1 }
  (r', buf.set ((r'.front_idx_ + r'.size_ - 1) % r'.capacity_) v)

/-- `push_front(value)`: if `full()` run `decrement_front_and_back_()`,
otherwise `decrement_front_()` (both set
`front_idx_ = (front_idx_ + capacity_ - 1) % capacity_`; the latter also
does `++size_`); then `front_() = value` assigns slot `front_idx_`. -/
def push_front (r : ring_span) (buf : List α) (v : α) : ring_span × List α :=
  let r' := if full r
    then { r with front_idx_ := (r.front_idx_ + r.capacity_ - 1) % r.capacity_ }
    else { r with front_idx_ := (r.front_idx_ + r.capacity_ - 1) % r.capacity_,
                  size_ := r.size_ + 1 }
  (r', buf.set r'.front_idx_ v)

/-- `pop_front()`: bind `elt = front_()` (slot `front_idx_`), run
`increment_front_()` (`front_idx_ = (front_idx_ + 1) % capacity_; --size_`),
then return `popper_(elt)`; the popper may rewrite the vacated slot. -/
def pop_front (p : Popper α β) (r : ring_span) (buf : List α) :
    (ring_span × List α) × β :=
  let elt := buf.getD r.front_idx_ default
  let r' := { r with front_idx_ := (r.front_idx_ + 1) % r.capacity_,
                     size_ := r.size_ - 1 }
  let pr := p.run elt
  ((r', buf.set r.front_idx_ pr.2), pr.1)

/-- `pop_back()`: bind `elt = back_()` (slot `(front_idx_ + size_ - 1) % capacity_`),
run `decrement_back_()` (`--size_`), then return `popper_(elt)`. -/
def pop_back (p : Popper α β) (r : ring_span) (buf : List α) :
    (ring_span × List α) × β :=
  let idx := (r.front_idx_ + r.size_ - 1) % r.capacity_
  let elt := buf.getD idx default
  let r' := { r with size_ := r.size_ - 1 }
  let pr := p.run elt
  ((r', buf.set idx pr.2), pr.1)

/-- `detail::ring_iterator`: holds a logical position `idx_` (`size_type`)
plus a back-pointer to its ring, modelled by passing the ring explicitly
to `deref`. -/
structure ring_iterator where
  idx_ : Nat
  deriving DecidableEq, Repr

/-- `operator*()`: `rv_->at(idx_)`. -/
def deref (it : ring_iterator) (r : ring_span) (buf : List α) : α :=
  at_ r buf it.idx_

/-- `operator++()`: `++idx_`. -/
def inc (it : ring_iterator) : ring_iterator :=
  { it with idx_ := it.idx_ + 1 }

/-- `operator--()`: the source body is `++idx_; return *this;`. -/
def dec (it : ring_iterator) : ring_iterator :=
  { it with idx_ := it.idx_ + 1 }

/-- `begin()`: `iterator(0, this)`. -/
def begin_it (_r : ring_span) : ring_iterator :=
  ⟨0⟩

/-- `end()`: `iterator(size(), this)`. -/
def end_it (r : ring_span) : ring_iterator :=
  ⟨r.size_⟩

/-- The sequence visited by iterating from `begin()` to `end()`:
`*it` at logical positions `0, 1, ..., size() - 1`. -/
def toList (r : ring_span) (buf : List α) : List α :=
  (List.range r.size_).map (fun i => at_ r buf i)

/-- One public mutating operation together with its argument. -/
inductive Op (α : Type) where
  | pushBack (v : α)
  | pushFront (v : α)
  | popFront
  | popBack
  deriving Repr

/-- Apply one operation to a (bookkeeping, storage) state.  The pops use
`move_popper` (the class's default `Popper`) and discard the popped value. -/
def step (op : Op α) (s : ring_span × List α) : ring_span × List α :=
  match op with
  | .pushBack v => push_back s.1 s.2 v
  | .pushFront v => push_front s.1 s.2 v
  | .popFront => (pop_front move_popper s.1 s.2).1
  | .popBack => (pop_back move_popper s.1 s.2).1

/-- The documented precondition of each operation: `pop_front`/`pop_back`
assert `not empty()`; push on a zero-capacity ring is a caller error, so
the pushes require `capacity() >= 1`. -/
def precond (op : Op α) (r : ring_span) : Prop :=
  match op with
  | .pushBack _ => 1 ≤ r.capacity_
  | .pushFront _ => 1 ≤ r.capacity_
  | .popFront => empty r = false
  | .popBack => empty r = false

/-- Run a sequence of operations left to right. -/
def run : List (Op α) → ring_span × List α → ring_span × List α
  | [], s => s
  | op :: ops, s => run ops (step op s)

/-- Every operation of the sequence is invoked on a state satisfying its
documented precondition. -/
def precondsHold : List (Op α) → ring_span × List α → Prop
  | [], _ => True
  | op :: ops, s => precond op s.1 ∧ precondsHold ops (step op s)

end P04

/-- Copying a `ring_span` (the implicitly generated copy constructor):
the three bookkeeping fields are duplicated; the `data_` pointer is copied,
so the two views share the same storage, which here stays one `List α`. -/
def copy (r : ring_span) : ring_span :=
  r

/-- Divisors of the `%` operations a `push_back` call evaluates, in source
order.  The full branch runs `increment_front_and_back_()`
(`(front_idx_ + 1) % capacity_`) and then the `back_()` lvalue
(`(front_idx_ + size_ - 1) % capacity_`); the non-full branch runs
`increment_back_()` (no modulus) and then `back_()`. -/
def P04.push_back_moduli (r : ring_span) : List Nat :=
  if P04.full r then [r.capacity_, r.capacity_] else [r.capacity_]

/-- Divisors of the `%` operations a `push_front` call evaluates: both
branches compute `(front_idx_ + capacity_ - 1) % capacity_` once
(`decrement_front_and_back_()` resp. `decrement_front_()`); the `front_()`
lvalue uses no modulus. -/
def P04.push_front_moduli (r : ring_span) : List Nat :=
  [r.capacity_]

/-- Divisors of the `%` operations a `pop_front` call evaluates: `front_()`
uses no modulus; `increment_front_()` computes `(front_idx_ + 1) % capacity_`. -/
def P04.pop_front_moduli (r : ring_span) : List Nat :=
  [r.capacity_]

/-- Divisors of the `%` operations a `pop_back` call evaluates: `back_()`
computes `(front_idx_ + size_ - 1) % capacity_`; `decrement_back_()` uses
no modulus. -/
def P04.pop_back_moduli (r : ring_span) : List Nat :=
  [r.capacity_]

/-- The concrete scenario of the traversal test: an empty capacity-4 ring,
then `push_back 1, 2, 3, 4, 5, 6` in order. -/
def c4_state : ring_span × List Nat :=
  P04.run [P04.Op.pushBack 1, P04.Op.pushBack 2, P04.Op.pushBack 3,
           P04.Op.pushBack 4, P04.Op.pushBack 5, P04.Op.pushBack 6]
    (P04.mkWindow ([0, 0, 0, 0] : List Nat) 0 0, [0, 0, 0, 0])

/-- A ring_span constructed by the full constructor over an empty range:
`capacity() == 0`. -/
def zero_cap_ring : ring_span :=
  P04.mkFull ([] : List Nat)

/-- A ring_span built by the four-argument constructor over a length-2
range with `first = begin` and `size = 3`: the constructor accepts the
out-of-range count. -/
def oversized_ring : ring_span :=
  P04.mkWindow ([7, 7] : List Nat) 0 3

namespace P03

variable {α β : Type} [Inhabited α]

/-- `empty()` of the draft header: `size_ == 0`. -/
def empty (r : ring_span) : Bool :=
  r.size_ == 0

/-- `full()` of the draft header: `size_ == capacity_`. -/
def full (r : ring_span) : Bool :=
  r.size_ == r.capacity_

/-- `back_idx()`: `(front_idx_ + size_) % capacity_`. -/
def back_idx (r : ring_span) : Nat :=
  (r.front_idx_ + r.size_) % r.capacity_

/-- The draft `push_back(value)`: `data_[back_idx()] = value;` then
`if (not full()) ++size_; else front_idx_ = (front_idx_ + 1) % capacity_;`. -/
def push_back (r : ring_span) (buf : List α) (v : α) : ring_span × List α :=
  let buf' := buf.set (back_idx r) v
  if full r
  then ({ r with front_idx_ := (r.front_idx_ + 1) % r.capacity_ }, buf')
  else ({ r with size_ := r.size_ + 1 }, buf')

/-- The draft `pop_front()`: remember `old_front_idx`, advance
`front_idx_ = (front_idx_ + 1) % capacity_`, `--size_`, then return
`popper_(data_[old_front_idx])`. -/
def pop_front (p : Popper α β) (r : ring_span) (buf : List α) :
    (ring_span × List α) × β :=
  let old := r.front_idx_
  let r' := { r with front_idx_ := (r.front_idx_ + 1) % r.capacity_,
                     size_ := r.size_ - 1 }
  let pr := p.run (buf.getD old default)
  ((r', buf.set old pr.2), pr.1)

/-- The free function `try_push_back(r, value)`: if `r.full()` return
`false` without touching anything, else `r.push_back(value); return true`. -/
def try_push_back (r : ring_span) (buf : List α) (v : α) :
    (ring_span × List α) × Bool :=
  if full r then ((r, buf), false) else (push_back r buf v, true)

/-- The free function `try_pop_front(r)`: if `r.empty()` return `false`
without touching anything, else `r.pop_front()` (result discarded) and
return `true`. -/
def try_pop_front (p : Popper α β) (r : ring_span) (buf : List α) :
    (ring_span × List α) × Bool :=
  if empty r then ((r, buf), false) else ((pop_front p r buf).1, true)

end P03

/-- `ring_view_iterator` of `ring_view.h`: logical position bookkeeping
(`idx_`, a `size_type`). -/
structure ring_view_iterator where
  idx_ : Nat
  deriving DecidableEq, Repr

/-- `ring_view_iterator::operator++()`: `++idx_`. -/
def ring_view_iterator_inc (it : ring_view_iterator) : ring_view_iterator :=
  ⟨it.idx_ + 1⟩

/-- `ring_view_iterator::operator--()`: the source body is
`++idx_; return *this;`. -/
def ring_view_iterator_dec (it : ring_view_iterator) : ring_view_iterator :=
  ⟨it.idx_ + 1⟩

theorem getD_set_self {α : Type} [Inhabited α] (l : List α) (i : Nat) (v : α)
    (h : i < l.length) : (l.set i v).getD i default = v := by
  induction l generalizing i with
  | nil => simp at h
  | cons a l ih =>
    cases i with
    | zero => rfl
    | succ n =>
      simp only [List.set, List.getD_cons_succ]
      exact ih n (by simpa using h)

theorem getD_set_ne {α : Type} [Inhabited α] (l : List α) (i j : Nat) (v : α)
    (h : i ≠ j) : (l.set i v).getD j default = l.getD j default := by
  induction l generalizing i j with
  | nil => rfl
  | cons a l ih =>
    cases i with
    | zero =>
      cases j with
      | zero => exact absurd rfl h
      | succ m => rfl
    | succ n =>
      cases j with
      | zero => rfl
      | succ m =>
        simp only [List.set, List.getD_cons_succ]
        exact ih n m (fun hnm => h (by rw [hnm]))

theorem add_mod_ne_self {c f k : Nat} (hk : 0 < k) (hkc : k < c) :
    (f + k) % c ≠ f % c := by
  intro h
  have hmod : k ≡ 0 [MOD c] := by
    have : f + k ≡ f + 0 [MOD c] := by
      simpa [Nat.ModEq] using h
    exact Nat.ModEq.add_left_cancel' f this
  have hk0 : k % c = 0 := by simpa [Nat.ModEq] using hmod
  rw [Nat.mod_eq_of_lt hkc] at hk0
  omega

/-- Claim C10: a ring built by the full constructor over an empty range,
so that `capacity() == 0` and `size() == 0`, reports `empty()` and
`full()` simultaneously: both queries return `true`. -/
theorem mkFull_empty_range_empty_and_full {α : Type} (buf : List α)
    (h : buf.length = 0) :
    P04.empty (P04.mkFull buf) = true ∧ P04.full (P04.mkFull buf) = true := by
  simp [P04.empty, P04.full, P04.mkFull, h]

/-- Witness for claim C10 at the concrete empty buffer. -/
theorem mkFull_empty_range_empty_and_full_witness :
    P04.empty (P04.mkFull ([] : List Nat)) = true ∧
    P04.full (P04.mkFull ([] : List Nat)) = true :=
  mkFull_empty_range_empty_and_full ([] : List Nat) rfl

/-- Claim C1: on a full ring (`size() == capacity()`, `capacity() >= 1`),
`push_back v` leaves `size()` and `capacity()` unchanged, installs `v` as
the element returned by `back()`, overwrites the physical slot that held
the old `front()` (evicting the oldest element), and shifts every surviving
element one logical position toward the front: the element at logical
position `i + 1` before the push is at logical position `i` after it. -/
theorem push_back_full_overwrite {α : Type} [Inhabited α]
    (r : ring_span) (buf : List α) (v : α) (i : Nat)
    (hfull : P04.full r = true) (hcap : 1 ≤ r.capacity_)
    (hf : r.front_idx_ < r.capacity_) (hlen : buf.length = r.capacity_)
    (hi : i + 1 < r.size_) :
    (P04.push_back r buf v).1.size_ = r.size_ ∧
    (P04.push_back r buf v).1.capacity_ = r.capacity_ ∧
    P04.back (P04.push_back r buf v).1 (P04.push_back r buf v).2 = v ∧
    (P04.push_back r buf v).2.getD r.front_idx_ default = v ∧
    P04.at_ (P04.push_back r buf v).1 (P04.push_back r buf v).2 i =
      P04.at_ r buf (i + 1) := by
  obtain ⟨s, c, f⟩ := r
  simp only at hcap hf hlen hi
  have hsc : s = c := by simpa [P04.full] using hfull
  subst hsc
  have hstep : P04.push_back (⟨s, s, f⟩ : ring_span) buf v =
      (⟨s, s, (f + 1) % s⟩, buf.set (((f + 1) % s + s - 1) % s) v) := by
    simp [P04.push_back, P04.full]
  have hw2 : ((f + 1) % s + (s - 1)) % s = f := by
    rw [Nat.mod_add_mod]
    rw [show f + 1 + (s - 1) = f + s by omega]
    rw [Nat.add_mod_right]
    exact Nat.mod_eq_of_lt hf
  have hw : ((f + 1) % s + s - 1) % s = f := by
    rw [show (f + 1) % s + s - 1 = (f + 1) % s + (s - 1) by omega]
    exact hw2
  have hflen : f < buf.length := by omega
  rw [hstep, hw]
  refine ⟨rfl, rfl, ?_, ?_, ?_⟩
  · show (buf.set f v).getD (((f + 1) % s + (s - 1)) % s) default = v
    rw [hw2]
    exact getD_set_self buf f v hflen
  · exact getD_set_self buf f v hflen
  · show (buf.set f v).getD (((f + 1) % s + i) % s) default =
      buf.getD ((f + (i + 1)) % s) default
    have key : ((f + 1) % s + i) % s = (f + (i + 1)) % s := by
      rw [Nat.mod_add_mod]
      congr 1
      omega
    have hne : (f + (i + 1)) % s ≠ f := by
      have h1 := add_mod_ne_self (c := s) (f := f) (k := i + 1)
        (by omega) (by omega)
      rwa [Nat.mod_eq_of_lt hf] at h1
    rw [key, getD_set_ne buf f ((f + (i + 1)) % s) v (fun h => hne h.symm)]

/-- Witness for claim C1: a full capacity-2 ring holding `[10, 20]`. -/
theorem push_back_full_overwrite_witness :
    (P04.push_back ⟨2, 2, 0⟩ [10, 20] 30).1.size_ = (⟨2, 2, 0⟩ : ring_span).size_ ∧
    (P04.push_back ⟨2, 2, 0⟩ [10, 20] 30).1.capacity_ = (⟨2, 2, 0⟩ : ring_span).capacity_ ∧
    P04.back (P04.push_back ⟨2, 2, 0⟩ [10, 20] 30).1 (P04.push_back ⟨2, 2, 0⟩ [10, 20] 30).2 = 30 ∧
    (P04.push_back ⟨2, 2, 0⟩ ([10, 20] : List Nat) 30).2.getD (0 : Nat) default = 30 ∧
    P04.at_ (P04.push_back ⟨2, 2, 0⟩ [10, 20] 30).1 (P04.push_back ⟨2, 2, 0⟩ [10, 20] 30).2 0 =
      P04.at_ (⟨2, 2, 0⟩ : ring_span) ([10, 20] : List Nat) 1 :=
  push_back_full_overwrite ⟨2, 2, 0⟩ ([10, 20] : List Nat) 30 0
    (by decide) (by decide) (by decide) (by decide) (by decide)

/-- Claim C3: on a non-empty ring, `pop_front()` decrements `size()` by one,
shifts the logical window so that the element previously at position `i + 1`
is now at position `i` (in particular the previously second-oldest element
becomes the new `front()`), and returns the configured removal policy's
result on the vacated slot; with `move_popper` the returned value equals
the value `front()` held before the call.  Symmetrically `pop_back()`
decrements `size()` by one and with `move_popper` returns the prior
`back()`. -/
theorem pop_front_pop_back_spec {α β : Type} [Inhabited α]
    (p : Popper α β) (r : ring_span) (buf : List α) (i : Nat)
    (hne : P04.empty r = false) (hsc : r.size_ ≤ r.capacity_)
    (hf : r.front_idx_ < r.capacity_) (hi : i + 1 < r.size_) :
    (P04.pop_front p r buf).1.1.size_ = r.size_ - 1 ∧
    P04.at_ (P04.pop_front p r buf).1.1 (P04.pop_front p r buf).1.2 i =
      P04.at_ r buf (i + 1) ∧
    (P04.pop_front p r buf).2 = (p.run (P04.front r buf)).1 ∧
    (P04.pop_front move_popper r buf).2 = P04.front r buf ∧
    (P04.pop_back p r buf).1.1.size_ = r.size_ - 1 ∧
    P04.at_ (P04.pop_back p r buf).1.1 (P04.pop_back p r buf).1.2 i =
      P04.at_ r buf i ∧
    (P04.pop_back move_popper r buf).2 = P04.back r buf := by
  obtain ⟨s, c, f⟩ := r
  simp only at hsc hf hi
  have hs1 : 1 ≤ s := by
    have : ¬ (s = 0) := by simpa [P04.empty] using hne
    omega
  have hfront : P04.front (⟨s, c, f⟩ : ring_span) buf = buf.getD f default := by
    simp [P04.front, P04.at_, Nat.mod_eq_of_lt hf]
  refine ⟨rfl, ?_, ?_, ?_, rfl, ?_, ?_⟩
  · show (buf.set f (p.run (buf.getD f default)).2).getD
        (((f + 1) % c + i) % c) default = buf.getD ((f + (i + 1)) % c) default
    have key : ((f + 1) % c + i) % c = (f + (i + 1)) % c := by
      rw [Nat.mod_add_mod]
      congr 1
      omega
    have hne2 : (f + (i + 1)) % c ≠ f := by
      have h1 := add_mod_ne_self (c := c) (f := f) (k := i + 1)
        (by omega) (by omega)
      rwa [Nat.mod_eq_of_lt hf] at h1
    rw [key, getD_set_ne buf f ((f + (i + 1)) % c) _ (fun h => hne2 h.symm)]
  · rw [hfront]
    rfl
  · rw [hfront]
    rfl
  · show (buf.set ((f + s - 1) % c) (p.run (buf.getD ((f + s - 1) % c) default)).2).getD
        ((f + i) % c) default = buf.getD ((f + i) % c) default
    have hne3 : (f + s - 1) % c ≠ (f + i) % c := by
      rw [show f + s - 1 = (f + i) + (s - 1 - i) by omega]
      exact add_mod_ne_self (by omega) (by omega)
    exact getD_set_ne buf _ _ _ hne3
  · show (buf.getD ((f + s - 1) % c) default) = buf.getD ((f + (s - 1)) % c) default
    rw [show f + s - 1 = f + (s - 1) by omega]

/-- Witness for claim C3: a size-2 ring over `[10, 20, 30]`, popping with
the identity-style move popper. -/
theorem pop_front_pop_back_spec_witness :
    (P04.pop_front move_popper ⟨2, 3, 0⟩ [10, 20, 30]).1.1.size_ = (⟨2, 3, 0⟩ : ring_span).size_ - 1 ∧
    P04.at_ (P04.pop_front move_popper ⟨2, 3, 0⟩ [10, 20, 30]).1.1
      (P04.pop_front (move_popper (α := Nat)) ⟨2, 3, 0⟩ [10, 20, 30]).1.2 0 =
      P04.at_ (⟨2, 3, 0⟩ : ring_span) ([10, 20, 30] : List Nat) 1 ∧
    (P04.pop_front move_popper ⟨2, 3, 0⟩ [10, 20, 30]).2 =
      ((move_popper (α := Nat)).run (P04.front ⟨2, 3, 0⟩ [10, 20, 30])).1 ∧
    (P04.pop_front move_popper ⟨2, 3, 0⟩ [10, 20, 30]).2 =
      P04.front (⟨2, 3, 0⟩ : ring_span) ([10, 20, 30] : List Nat) ∧
    (P04.pop_back move_popper ⟨2, 3, 0⟩ [10, 20, 30]).1.1.size_ = (⟨2, 3, 0⟩ : ring_span).size_ - 1 ∧
    P04.at_ (P04.pop_back move_popper ⟨2, 3, 0⟩ [10, 20, 30]).1.1
      (P04.pop_back (move_popper (α := Nat)) ⟨2, 3, 0⟩ [10, 20, 30]).1.2 0 =
      P04.at_ (⟨2, 3, 0⟩ : ring_span) ([10, 20, 30] : List Nat) 0 ∧
    (P04.pop_back move_popper ⟨2, 3, 0⟩ [10, 20, 30]).2 =
      P04.back (⟨2, 3, 0⟩ : ring_span) ([10, 20, 30] : List Nat) :=
  pop_front_pop_back_spec (move_popper (α := Nat)) ⟨2, 3, 0⟩ [10, 20, 30] 0
    (by decide) (by decide) (by decide) (by decide)

/-- Claim C4: the cursor at logical position `i` dereferences to the element
in physical slot `(front_idx_ + i) % capacity_`; iterating `begin()..end()`
visits exactly `size()` elements, the one at iteration step `i` being the
ring's `i`-th oldest (`at(i)`); and concretely, pushing 1..6 into an empty
capacity-4 ring yields `size() == 4`, `front() == 3`, `back() == 6`. -/
theorem cursor_traversal_spec {α : Type} [Inhabited α]
    (r : ring_span) (buf : List α) (i : Nat) (hi : i < r.size_) :
    P04.deref ⟨i⟩ r buf = buf.getD ((r.front_idx_ + i) % r.capacity_) default ∧
    (P04.toList r buf).length = P04.size r ∧
    (P04.toList r buf).getD i default = P04.deref ⟨i⟩ r buf ∧
    P04.size c4_state.1 = 4 ∧
    P04.front c4_state.1 c4_state.2 = 3 ∧
    P04.back c4_state.1 c4_state.2 = 6 := by
  refine ⟨rfl, by simp [P04.toList, P04.size], ?_, by decide, by decide, by decide⟩
  rw [List.getD_eq_getElem?_getD]
  simp [P04.toList, List.getElem?_range, hi, P04.deref]

/-- Witness for claim C4: position 1 of a size-2, capacity-3 ring. -/
theorem cursor_traversal_spec_witness :
    P04.deref ⟨1⟩ (⟨2, 3, 1⟩ : ring_span) ([10, 20, 30] : List Nat) =
      List.getD [10, 20, 30] ((1 + 1) % 3) default ∧
    (P04.toList (⟨2, 3, 1⟩ : ring_span) ([10, 20, 30] : List Nat)).length =
      P04.size ⟨2, 3, 1⟩ ∧
    (P04.toList (⟨2, 3, 1⟩ : ring_span) ([10, 20, 30] : List Nat)).getD 1 default =
      P04.deref ⟨1⟩ (⟨2, 3, 1⟩ : ring_span) ([10, 20, 30] : List Nat) ∧
    P04.size c4_state.1 = 4 ∧
    P04.front c4_state.1 c4_state.2 = 3 ∧
    P04.back c4_state.1 c4_state.2 = 6 :=
  cursor_traversal_spec ⟨2, 3, 1⟩ ([10, 20, 30] : List Nat) 1 (by decide)

theorem step_preserves_size_le {α : Type} [Inhabited α]
    (op : P04.Op α) (s : ring_span × List α)
    (h : s.1.size_ ≤ s.1.capacity_) :
    (P04.step op s).1.size_ ≤ (P04.step op s).1.capacity_ := by
  obtain ⟨⟨sz, c, f⟩, buf⟩ := s
  simp only at h
  cases op with
  | pushBack v =>
    by_cases hfc : sz = c
    · simp [P04.step, P04.push_back, P04.full, hfc]
    · simp only [P04.step, P04.push_back, P04.full]
      rw [if_neg (by simpa using hfc)]
      simpa using by omega
  | pushFront v =>
    by_cases hfc : sz = c
    · simp [P04.step, P04.push_front, P04.full, hfc]
    · simp only [P04.step, P04.push_front, P04.full]
      rw [if_neg (by simpa using hfc)]
      simpa using by omega
  | popFront =>
    simp only [P04.step, P04.pop_front]
    simpa using by omega
  | popBack =>
    simp only [P04.step, P04.pop_back]
    simpa using by omega

theorem run_preserves_size_le {α : Type} [Inhabited α]
    (ops : List (P04.Op α)) (s : ring_span × List α)
    (h : s.1.size_ ≤ s.1.capacity_) :
    (P04.run ops s).1.size_ ≤ (P04.run ops s).1.capacity_ := by
  induction ops generalizing s with
  | nil => exact h
  | cons op ops ih => exact ih _ (step_preserves_size_le op s h)

/-- Claim C2: running any sequence of public mutating operations, each
invoked with its documented precondition satisfied, from a validly
constructed ring (`size_ ≤ capacity_`) keeps `0 ≤ size() ≤ capacity()`,
and the queries agree with the size counter: `empty()` returns `true` iff
`size() = 0` and `full()` returns `true` iff `size() = capacity()`.
(Since every prefix of an operation sequence is itself such a sequence,
this gives the invariant before and after every single operation.  The
precondition hypothesis mirrors the claim's proviso; note that `--size_`
on an empty ring would wrap the C++ `size_t` counter, while the `Nat`
model truncates at zero, so only precondition-respecting runs are a
faithful picture of the source.) -/
theorem ring_invariant {α : Type} [Inhabited α]
    (ops : List (P04.Op α)) (r : ring_span) (buf : List α)
    (hinv : r.size_ ≤ r.capacity_)
    (_hpre : P04.precondsHold ops (r, buf)) :
    P04.size (P04.run ops (r, buf)).1 ≤ P04.capacity (P04.run ops (r, buf)).1 ∧
    (P04.empty (P04.run ops (r, buf)).1 = true ↔
      P04.size (P04.run ops (r, buf)).1 = 0) ∧
    (P04.full (P04.run ops (r, buf)).1 = true ↔
      P04.size (P04.run ops (r, buf)).1 = P04.capacity (P04.run ops (r, buf)).1) := by
  refine ⟨run_preserves_size_le ops (r, buf) hinv, ?_, ?_⟩
  · simp [P04.empty, P04.size]
  · simp [P04.full, P04.size, P04.capacity]

/-- Witness for claim C2: push 5 then pop it again on an empty capacity-2
ring; both preconditions hold along the way. -/
theorem ring_invariant_witness :
    P04.size (P04.run [P04.Op.pushBack 5, P04.Op.popFront] (⟨0, 2, 0⟩, [0, 0])).1 ≤
      P04.capacity (P04.run [P04.Op.pushBack 5, P04.Op.popFront] (⟨0, 2, 0⟩, ([0, 0] : List Nat))).1 ∧
    (P04.empty (P04.run [P04.Op.pushBack 5, P04.Op.popFront] (⟨0, 2, 0⟩, [0, 0])).1 = true ↔
      P04.size (P04.run [P04.Op.pushBack 5, P04.Op.popFront] (⟨0, 2, 0⟩, ([0, 0] : List Nat))).1 = 0) ∧
    (P04.full (P04.run [P04.Op.pushBack 5, P04.Op.popFront] (⟨0, 2, 0⟩, [0, 0])).1 = true ↔
      P04.size (P04.run [P04.Op.pushBack 5, P04.Op.popFront] (⟨0, 2, 0⟩, ([0, 0] : List Nat))).1 =
        P04.capacity (P04.run [P04.Op.pushBack 5, P04.Op.popFront] (⟨0, 2, 0⟩, ([0, 0] : List Nat))).1) :=
  ring_invariant [P04.Op.pushBack 5, P04.Op.popFront] ⟨0, 2, 0⟩ ([0, 0] : List Nat)
    (by decide)
    ⟨by simp only [P04.precond]; decide, by simp only [P04.precond]; decide, trivial⟩

/-- Claim C5: `try_push_back(r, v)` returns `false` and leaves the
bookkeeping fields and every storage slot unchanged when `r` is full, and
otherwise performs exactly the effect of `push_back(v)` and returns `true`;
`try_pop_front(r)` returns `false` with zero mutation when `r` is empty,
and otherwise performs `pop_front()` (discarding the popped value) and
returns `true`. -/
theorem try_ops_spec {α β : Type} [Inhabited α]
    (p : Popper α β) (r : ring_span) (buf : List α) (v : α) :
    (P03.full r = true → P03.try_push_back r buf v = ((r, buf), false)) ∧
    (P03.full r = false →
      P03.try_push_back r buf v = (P03.push_back r buf v, true)) ∧
    (P03.empty r = true → P03.try_pop_front p r buf = ((r, buf), false)) ∧
    (P03.empty r = false →
      P03.try_pop_front p r buf = ((P03.pop_front p r buf).1, true)) := by
  refine ⟨fun h => ?_, fun h => ?_, fun h => ?_, fun h => ?_⟩ <;>
    simp [P03.try_push_back, P03.try_pop_front, h]

/-- Witness for claim C5: a full ring blocks `try_push_back`, a non-full
ring pushes; an empty ring blocks `try_pop_front`, a non-empty ring pops. -/
theorem try_ops_spec_witness :
    P03.try_push_back ⟨2, 2, 0⟩ ([1, 2] : List Nat) 9 = ((⟨2, 2, 0⟩, [1, 2]), false) ∧
    P03.try_push_back ⟨1, 2, 0⟩ ([1, 2] : List Nat) 9 =
      (P03.push_back ⟨1, 2, 0⟩ ([1, 2] : List Nat) 9, true) ∧
    P03.try_pop_front move_popper ⟨0, 2, 0⟩ ([1, 2] : List Nat) = ((⟨0, 2, 0⟩, [1, 2]), false) ∧
    P03.try_pop_front move_popper ⟨1, 2, 0⟩ ([1, 2] : List Nat) =
      ((P03.pop_front (move_popper (α := Nat)) ⟨1, 2, 0⟩ ([1, 2] : List Nat)).1, true) :=
  ⟨(try_ops_spec (move_popper (α := Nat)) ⟨2, 2, 0⟩ [1, 2] 9).1 (by decide),
   (try_ops_spec (move_popper (α := Nat)) ⟨1, 2, 0⟩ [1, 2] 9).2.1 (by decide),
   (try_ops_spec (move_popper (α := Nat)) ⟨0, 2, 0⟩ [1, 2] 9).2.2.1 (by decide),
   (try_ops_spec (move_popper (α := Nat)) ⟨1, 2, 0⟩ [1, 2] 9).2.2.2 (by decide)⟩

/-- Claim C6 (evaluation of the code at the failing input): `operator--`
on both cursor types executes `++idx_`, the same body as `operator++`:
decrementing a cursor at logical position 1 yields position 2 rather than
position 0, and increment followed by decrement takes position 0 to
position 2 rather than back to 0. -/
theorem iterator_dec_increments :
    P04.dec ⟨1⟩ = (⟨2⟩ : P04.ring_iterator) ∧
    P04.dec ⟨1⟩ ≠ (⟨0⟩ : P04.ring_iterator) ∧
    P04.dec (P04.inc ⟨0⟩) = (⟨2⟩ : P04.ring_iterator) ∧
    P04.dec (P04.inc ⟨0⟩) ≠ (⟨0⟩ : P04.ring_iterator) ∧
    ring_view_iterator_dec ⟨1⟩ = (⟨2⟩ : ring_view_iterator) ∧
    ring_view_iterator_dec ⟨1⟩ ≠ (⟨0⟩ : ring_view_iterator) := by
  decide

/-- Counterexample for claim C7: on the ring constructed with
`capacity() == 0`, a `push_back` call does evaluate an index expression
`x % capacity_` with `capacity_ == 0` (twice: in
`increment_front_and_back_()` and in the `back_()` lvalue), rather than
guarding against the zero modulus. -/
theorem zero_cap_push_evaluates_zero_modulus :
    P04.capacity zero_cap_ring = 0 ∧
    (0 : Nat) ∈ P04.push_back_moduli zero_cap_ring := by
  decide

/-- Claim C7 as amended: the implementation guards only through the caller
precondition, not in code.  On any ring with `capacity() >= 1` every
modulus evaluated by `push_back`, `push_front`, `pop_front` and `pop_back`
is positive; on a zero-capacity ring every one of those four calls
evaluates an `x % capacity_` expression with `capacity_ == 0`. -/
theorem modulus_guard_amended (r : ring_span) :
    (1 ≤ r.capacity_ →
      (∀ m ∈ P04.push_back_moduli r, 0 < m) ∧
      (∀ m ∈ P04.push_front_moduli r, 0 < m) ∧
      (∀ m ∈ P04.pop_front_moduli r, 0 < m) ∧
      (∀ m ∈ P04.pop_back_moduli r, 0 < m)) ∧
    (r.capacity_ = 0 →
      0 ∈ P04.push_back_moduli r ∧ 0 ∈ P04.push_front_moduli r ∧
      0 ∈ P04.pop_front_moduli r ∧ 0 ∈ P04.pop_back_moduli r) := by
  constructor
  · intro h
    refine ⟨?_, ?_, ?_, ?_⟩ <;> intro m hm
    · rw [P04.push_back_moduli] at hm
      split at hm <;> simp at hm <;> omega
    · simp [P04.push_front_moduli] at hm
      omega
    · simp [P04.pop_front_moduli] at hm
      omega
    · simp [P04.pop_back_moduli] at hm
      omega
  · intro h
    refine ⟨?_, ?_, ?_, ?_⟩
    · rw [P04.push_back_moduli]
      split <;> simp [h]
    · simp [P04.push_front_moduli, h]
    · simp [P04.pop_front_moduli, h]
    · simp [P04.pop_back_moduli, h]

/-- Witness for the amended claim C7: a capacity-1 ring only evaluates
positive moduli in `push_back`; the zero-capacity ring evaluates a zero
modulus there. -/
theorem modulus_guard_amended_witness :
    (∀ m ∈ P04.push_back_moduli ⟨1, 1, 0⟩, 0 < m) ∧
    0 ∈ P04.push_back_moduli zero_cap_ring :=
  ⟨((modulus_guard_amended ⟨1, 1, 0⟩).1 (by decide)).1,
   ((modulus_guard_amended zero_cap_ring).2 rfl).1⟩

/-- Counterexample for claim C8: the four-argument constructor accepts a
count exceeding the capacity without any rejection: over a length-2 range
with `size = 3` it yields a ring with `size() == 3 > 2 == capacity()`. -/
theorem oversized_ring_constructed :
    oversized_ring.size_ = 3 ∧ oversized_ring.capacity_ = 2 ∧
    ¬ (P04.size oversized_ring ≤ P04.capacity oversized_ring) := by
  decide

/-- Claim C8 as amended: the four-argument constructor performs no
validation — it stores the given count, the range length and the start
offset verbatim — so the constructed ring satisfies
`size() <= capacity()` and `front_idx_ < capacity()` exactly when the
caller's arguments already lay in range. -/
theorem mkWindow_stores_arguments {α : Type} (buf : List α) (first sz : Nat) :
    (P04.mkWindow buf first sz).size_ = sz ∧
    (P04.mkWindow buf first sz).capacity_ = buf.length ∧
    (P04.mkWindow buf first sz).front_idx_ = first ∧
    (first < buf.length → sz ≤ buf.length →
      (P04.mkWindow buf first sz).front_idx_ < (P04.mkWindow buf first sz).capacity_ ∧
      (P04.mkWindow buf first sz).size_ ≤ (P04.mkWindow buf first sz).capacity_) :=
  ⟨rfl, rfl, rfl, fun h1 h2 => ⟨h1, h2⟩⟩

/-- Witness for the amended claim C8 over a length-2 range with in-range
arguments. -/
theorem mkWindow_stores_arguments_witness :
    (P04.mkWindow ([5, 5] : List Nat) 0 1).size_ = 1 ∧
    (P04.mkWindow ([5, 5] : List Nat) 0 1).capacity_ = 2 ∧
    (P04.mkWindow ([5, 5] : List Nat) 0 1).front_idx_ = 0 ∧
    ((P04.mkWindow ([5, 5] : List Nat) 0 1).front_idx_ <
        (P04.mkWindow ([5, 5] : List Nat) 0 1).capacity_ ∧
      (P04.mkWindow ([5, 5] : List Nat) 0 1).size_ ≤
        (P04.mkWindow ([5, 5] : List Nat) 0 1).capacity_) :=
  ⟨(mkWindow_stores_arguments [5, 5] 0 1).1,
   (mkWindow_stores_arguments ([5, 5] : List Nat) 0 1).2.1,
   (mkWindow_stores_arguments ([5, 5] : List Nat) 0 1).2.2.1,
   (mkWindow_stores_arguments ([5, 5] : List Nat) 0 1).2.2.2 (by decide) (by decide)⟩

/-- Claim C9: copying a ring_span duplicates only the three bookkeeping
fields (`copy r = r`) while the storage stays shared.  A `push_back`
performed through the copy of a full ring leaves size and capacity as the
original had them, touches no storage slot other than the one it assigns,
and that assignment made through the copy is observed through the
original, whose own bookkeeping the call never reads or writes: the
original's `front()` evaluated against the shared storage now yields the
pushed value. -/
theorem shared_storage_after_copy {α : Type} [Inhabited α]
    (r : ring_span) (buf : List α) (v : α) (j : Nat)
    (hfull : P04.full r = true) (hcap : 1 ≤ r.capacity_)
    (hf : r.front_idx_ < r.capacity_) (hlen : buf.length = r.capacity_)
    (hj : j ≠ r.front_idx_) :
    copy r = r ∧
    (P04.push_back (copy r) buf v).1.size_ = r.size_ ∧
    (P04.push_back (copy r) buf v).1.capacity_ = r.capacity_ ∧
    P04.front r (P04.push_back (copy r) buf v).2 = v ∧
    (P04.push_back (copy r) buf v).2.getD j default = buf.getD j default := by
  obtain ⟨s, c, f⟩ := r
  simp only at hcap hf hlen hj
  have hsc : s = c := by simpa [P04.full] using hfull
  subst hsc
  have hstep : P04.push_back (copy ⟨s, s, f⟩) buf v =
      (⟨s, s, (f + 1) % s⟩, buf.set (((f + 1) % s + s - 1) % s) v) := by
    simp [copy, P04.push_back, P04.full]
  have hw : ((f + 1) % s + s - 1) % s = f := by
    rw [show (f + 1) % s + s - 1 = (f + 1) % s + (s - 1) by omega,
      Nat.mod_add_mod, show f + 1 + (s - 1) = f + s by omega,
      Nat.add_mod_right]
    exact Nat.mod_eq_of_lt hf
  rw [hstep, hw]
  refine ⟨rfl, rfl, rfl, ?_, ?_⟩
  · show (buf.set f v).getD ((f + 0) % s) default = v
    rw [Nat.add_zero, Nat.mod_eq_of_lt hf]
    exact getD_set_self buf f v (by omega)
  · exact getD_set_ne buf f j v (fun h => hj h.symm)

/-- Witness for claim C9: a full capacity-2 ring over `[10, 20]`; slot 1 is
the one the push does not touch. -/
theorem shared_storage_after_copy_witness :
    copy ⟨2, 2, 0⟩ = (⟨2, 2, 0⟩ : ring_span) ∧
    (P04.push_back (copy ⟨2, 2, 0⟩) ([10, 20] : List Nat) 30).1.size_ =
      (⟨2, 2, 0⟩ : ring_span).size_ ∧
    (P04.push_back (copy ⟨2, 2, 0⟩) ([10, 20] : List Nat) 30).1.capacity_ =
      (⟨2, 2, 0⟩ : ring_span).capacity_ ∧
    P04.front ⟨2, 2, 0⟩ (P04.push_back (copy ⟨2, 2, 0⟩) ([10, 20] : List Nat) 30).2 = 30 ∧
    (P04.push_back (copy ⟨2, 2, 0⟩) ([10, 20] : List Nat) 30).2.getD (1 : Nat) default =
      List.getD ([10, 20] : List Nat) 1 default :=
  shared_storage_after_copy ⟨2, 2, 0⟩ ([10, 20] : List Nat) 30 1
    (by decide) (by decide) (by decide) (by decide) (by decide)
